import Mathlib

/-! xiapply: a verification development

`xiapply [-v] command [ command args ]` runs `command` once and then again
each time an XInput device is enabled.  This file embeds `src/xiapply.c`
in Lean: every function of the program becomes a function that returns the
sequence of observable effects it performs together with the way it ended.

The environment (the X server, `fork`, the children) is an explicit input:
`Env` records what each library call answers.  The argument list handed to
`main` is `argv[1..]`; `argv[0]`, the program name, is always present
(`argc ≥ 1`) and is not part of the model.  Diagnostic lines are recorded
without the `progname: ` prefix that `warnx` and friends put in front.
-/

namespace Xiapply

/-! ## Constants of the C library and of the X headers -/

/-- The `WTERMSIG(status)` of `<sys/wait.h>` (Linux encoding): the low seven bits. -/
def WTERMSIG (status : Nat) : Nat := status &&& 0x7f

/-- The `WIFEXITED(status)` of `<sys/wait.h>`: no terminating signal recorded. -/
def WIFEXITED (status : Nat) : Bool := WTERMSIG status == 0

/-- The `WEXITSTATUS(status)` of `<sys/wait.h>`: bits 8 to 15. -/
def WEXITSTATUS (status : Nat) : Nat := (status &&& 0xff00) >>> 8

/-- The `GenericEvent` event type of `<X11/X.h>`. -/
def GenericEvent : Int := 35

/-- The `XI_HierarchyChanged` event type of `<X11/extensions/XI2.h>`. -/
def XI_HierarchyChanged : Int := 11

/-- The `XIDeviceEnabled` flag, `(1 << 6)`. -/
def XIDeviceEnabled : Nat := 1 <<< 6

/-- The `XIDeviceDisabled` flag, `(1 << 7)`. -/
def XIDeviceDisabled : Nat := 1 <<< 7

/-- The `XISlaveAdded` flag, `(1 << 2)`. -/
def XISlaveAdded : Nat := 1 <<< 2

/-- The `XISlaveRemoved` flag, `(1 << 3)`. -/
def XISlaveRemoved : Nat := 1 <<< 3

/-! ## Effects and runs -/

/-- Which process writes a line: `xiapply` itself or the child it forked
(the child runs lines 117-119 of `apply` and shares standard error). -/
inductive Proc
  | parent
  | child
  deriving DecidableEq

/-- The observable steps of the program, in the order they happen.
`waitpid status` is the return of `waitpid(pid, &status, 0)` with the
value the variable `status` then holds: the call blocks until the child has
terminated, also when it fails with `ECHILD` (the program installs no
signal handler, so it is not interrupted). -/
inductive Effect
  | diag (p : Proc) (line : String)
  | XOpenDisplay (ok : Bool)
  | XQueryExtension (ok : Bool)
  | XIQueryVersion (ok : Bool)
  | XISelectEvents (ok : Bool)
  | fork (ok : Bool)
  | execvp (argv : List String) (ok : Bool)
  | waitpid (status : Nat)
  | XNextEvent
  | XGetEventData (ok : Bool)
  | XFreeEventData
  deriving DecidableEq

/-- How a piece of the program ends: it returns to its caller, the process
exits with a code, or it is suspended in `XNextEvent` with nothing left to
read. -/
inductive Outcome
  | returned
  | exited (code : Nat)
  | blocked
  deriving DecidableEq

/-- The effects of a piece of the program and the way it ended. -/
structure Run where
  trace : List Effect
  outcome : Outcome
  deriving DecidableEq

/-- What happens when `apply` calls `fork`:
* `failed e`: `fork` returns -1, `e` is `strerror(errno)`;
* `execFailed e`: the child is created and `execvp` returns in it;
* `ran status`: the child is created, `execvp` succeeds, the command runs
  and `waitpid` stores `status`;
* `unreaped status garbage`: the child is created, `execvp` succeeds and
  the command ends with wait status `status`, but `waitpid` fails with
  `ECHILD` once the child has terminated (the program was started with
  `SIGCHLD` ignored) and stores nothing: the variable `status` of line 121,
  which has no initial value, holds `garbage`.  Line 122 discards the
  result of `waitpid`, so `apply` goes on to read that variable. -/
inductive ForkOutcome
  | failed (e : String)
  | execFailed (e : String)
  | ran (status : Nat)
  | unreaped (status garbage : Nat)
  deriving DecidableEq

/-- The fields of an `XEvent` that `main` reads.  `extension` and `evtype`
are the `xgeneric` view of the union; `cookie` is `none` when
`XGetEventData` returns `False` and `some flags` when it succeeds and the
data is an `XIHierarchyEvent` with these `flags`. -/
structure XEvent where
  type : Int
  extension : Int
  evtype : Int
  cookie : Option Nat
  deriving DecidableEq

/-- Everything the outside world answers during one execution. -/
structure Env where
  display : Bool
  extension : Option Int
  versionOk : Bool
  selectOk : Bool
  children : Nat → ForkOutcome
  events : List XEvent

/-! ## The program -/

/-- The text of `usage`. -/
def usageLine : String := "Usage: xiapply [-v] command [ command args ]"

/-- Lines 67-71: `errx(2, ...)`. -/
def usage : Run :=
  ⟨[Effect.diag Proc.parent usageLine], Outcome.exited 2⟩

/-- Lines 73-82: `XQueryExtension(...) && XIQueryVersion(...) == Success`;
the second call is made only when the first succeeds.  The answer is the
opcode when both succeed. -/
def queryXI2 (extension : Option Int) (versionOk : Bool) : List Effect × Option Int :=
  match extension with
  | none => ([Effect.XQueryExtension false], none)
  | some opcode =>
    ([Effect.XQueryExtension true, Effect.XIQueryVersion versionOk],
      if versionOk then some opcode else none)

/-- Lines 84-97: one `XISelectEvents` call. -/
def selectXI2Event (selectOk : Bool) : List Effect × Bool :=
  ([Effect.XISelectEvents selectOk], selectOk)

/-- The line `warnstatus` prints, lines 99-106. -/
def statusLine (status : Nat) : String :=
  if WIFEXITED status then
    "Child exited with status " ++ toString (WEXITSTATUS status) ++ "."
  else
    "Child exited on signal " ++ toString (WTERMSIG status) ++ "."

/-- Lines 99-106. -/
def warnstatus (status : Nat) : List Effect :=
  [Effect.diag Proc.parent (statusLine status)]

/-- The `argv[0]` of a command vector. -/
def argv0 (argv : List String) : String := argv.headD ""

/-- The child side of `fork` (lines 117-119) followed by the value the
variable `status` holds after line 122: when `execvp` returns, the child
warns and calls `_exit(1)`, which `waitpid` reports as `1 << 8`; when
`waitpid` fails the variable keeps the value it happened to have.  No child
exists when `fork` failed; `apply` does not use that case. -/
def childSide (argv : List String) : ForkOutcome → List Effect × Nat
  | ForkOutcome.failed _ => ([], 0)
  | ForkOutcome.execFailed e =>
    ([Effect.execvp argv false,
      Effect.diag Proc.child ("Failed to exec " ++ "\x27" ++ argv0 argv ++ "\x27" ++ ": " ++ e)],
      1 <<< 8)
  | ForkOutcome.ran status => ([Effect.execvp argv true], status)
  | ForkOutcome.unreaped _ garbage => ([Effect.execvp argv true], garbage)

/-- Lines 108-133. -/
def apply (verbose : Bool) (argv : List String) (o : ForkOutcome) : Run :=
  let start : List Effect :=
    if verbose then [Effect.diag Proc.parent ("Starting command: " ++ argv0 argv)] else []
  match o with
  | ForkOutcome.failed e =>
    ⟨start ++ [Effect.fork false,
        Effect.diag Proc.parent ("Failed to create child process: " ++ e)],
      Outcome.exited 1⟩
  | _ =>
    let c := childSide argv o
    let status := c.2
    let waited := start ++ [Effect.fork true] ++ c.1 ++ [Effect.waitpid status]
    let quit := !WIFEXITED status || WEXITSTATUS status != 0
    if verbose || quit then
      if quit then ⟨waited ++ warnstatus status, Outcome.exited 1⟩
      else ⟨waited ++ warnstatus status, Outcome.returned⟩
    else ⟨waited, Outcome.returned⟩

/-- The `switch` of lines 145-151 over the characters of one option
cluster `-c1c2...`: each `v` sets `verbose`, any other character makes
`getopt` return `?` (silently, the option string starts `+:`) and `main`
call `usage`, reported as `none`. -/
def scanCluster (verbose : Bool) : List Char → Option Bool
  | [] => some verbose
  | c :: cs => if c = 'v' then scanCluster true cs else none

/-- Lines 144-152, the `getopt(argc, argv, "+:v")` loop over `argv[1..]`.
GNU `getopt` with a leading `+` stops at the first word that is not an
option (a word not starting with `-`, or `-` alone) and at `--`, which it
skips.  The answer is `none` when `usage` is called, otherwise the value of
`verbose` and the words from `optind` on. -/
def parseArgs (verbose : Bool) : List String → Option (Bool × List String)
  | [] => some (verbose, [])
  | a :: rest =>
    if a = "--" then some (verbose, rest)
    else
      match a.data with
      | '-' :: c :: cs =>
        match scanCluster verbose (c :: cs) with
        | none => none
        | some v => parseArgs v rest
      | _ => some (verbose, a :: rest)

/-- Lines 173-181, the body of the loop after `XNextEvent` has delivered
`ev`.  `k` is the number of runs of the command made so far, so that
`children k` is what the next `fork` does; the second component is that
number after the body.  The `&&` chain is short-circuit: `XGetEventData`
is called only when the three comparisons hold, and `XFreeEventData` only
when it succeeded. -/
def loopBody (verbose : Bool) (cmd : List String) (opcode : Int)
    (children : Nat → ForkOutcome) (k : Nat) (ev : XEvent) : Run × Nat :=
  if ev.type = GenericEvent ∧ ev.extension = opcode ∧ ev.evtype = XI_HierarchyChanged then
    match ev.cookie with
    | none => (⟨[Effect.XGetEventData false], Outcome.returned⟩, k)
    | some flags =>
      if flags &&& XIDeviceEnabled != 0 then
        let a := apply verbose cmd (children k)
        match a.outcome with
        | Outcome.returned =>
          (⟨Effect.XGetEventData true :: a.trace ++ [Effect.XFreeEventData],
            Outcome.returned⟩, k + 1)
        | out => (⟨Effect.XGetEventData true :: a.trace, out⟩, k + 1)
      else
        (⟨[Effect.XGetEventData true, Effect.XFreeEventData], Outcome.returned⟩, k)
  else (⟨[], Outcome.returned⟩, k)

/-- Lines 170-182: the `for (;;)` loop fed with the events still to come;
`k` counts the runs of the command made so far.  When the events are used
up `XNextEvent` does not return. -/
def eventLoop (verbose : Bool) (cmd : List String) (opcode : Int)
    (children : Nat → ForkOutcome) : Nat → List XEvent → Run
  | _, [] => ⟨[Effect.XNextEvent], Outcome.blocked⟩
  | k, ev :: evs =>
    let b := loopBody verbose cmd opcode children k ev
    match b.1.outcome with
    | Outcome.returned =>
      let r := eventLoop verbose cmd opcode children b.2 evs
      ⟨Effect.XNextEvent :: b.1.trace ++ r.trace, r.outcome⟩
    | out => ⟨Effect.XNextEvent :: b.1.trace, out⟩

/-- Lines 159-182: `main` once the options are parsed. -/
def run (env : Env) (verbose : Bool) (cmd : List String) : Run :=
  if env.display then
    let q := queryXI2 env.extension env.versionOk
    match q.2 with
    | none =>
      ⟨Effect.XOpenDisplay true :: q.1 ++
          [Effect.diag Proc.parent "XInputExtension version 2 not available."],
        Outcome.exited 1⟩
    | some opcode =>
      let s := selectXI2Event env.selectOk
      if s.2 then
        let a := apply verbose cmd (env.children 0)
        let setup := Effect.XOpenDisplay true :: q.1 ++ s.1
        match a.outcome with
        | Outcome.returned =>
          let l := eventLoop verbose cmd opcode env.children 1 env.events
          ⟨setup ++ a.trace ++ l.trace, l.outcome⟩
        | out => ⟨setup ++ a.trace, out⟩
      else
        ⟨Effect.XOpenDisplay true :: q.1 ++ s.1 ++
            [Effect.diag Proc.parent "Failed to listen to XInput 2 hierarchy events."],
          Outcome.exited 1⟩
  else
    ⟨[Effect.XOpenDisplay false, Effect.diag Proc.parent "Failed to open display."],
      Outcome.exited 1⟩

/-- Lines 135-185 on `argv[1..]`. -/
def main (env : Env) (args : List String) : Run :=
  match parseArgs false args with
  | none => usage
  | some (verbose, cmd) =>
    if cmd.length = 0 then usage
    else run env verbose cmd

/-! ## Reading a trace -/

/-- The line `apply` writes before `fork` in verbose mode. -/
def startLine (argv : List String) : String := "Starting command: " ++ argv0 argv

/-- The effects of `apply` up to and including the return of `waitpid`
when the command could be executed and ended with `status`. -/
def spawned (verbose : Bool) (argv : List String) (status : Nat) : List Effect :=
  (if verbose then [Effect.diag Proc.parent (startLine argv)] else []) ++
    [Effect.fork true, Effect.execvp argv true, Effect.waitpid status]

/-- An environment in which everything succeeds: the display opens, the
extension has opcode 131, every run of the command exits with status 0,
and no event arrives. -/
def quietEnv : Env :=
  ⟨true, some 131, true, true, fun _ => ForkOutcome.ran 0, []⟩

/-- The number of calls of `fork` in a trace.  `apply` calls `fork`
exactly once, so this is the number of invocations of `apply`. -/
def forks : List Effect → Nat
  | [] => 0
  | Effect.fork _ :: t => forks t + 1
  | _ :: t => forks t

/-- A run of the command that lets `apply` return: the child was created,
the command was executed and the status `apply` reads after `waitpid` is
that of an exit with status 0. -/
def succeeds : ForkOutcome → Bool
  | ForkOutcome.ran status => WIFEXITED status && WEXITSTATUS status == 0
  | ForkOutcome.unreaped _ garbage => WIFEXITED garbage && WEXITSTATUS garbage == 0
  | _ => false

/-- Whether the tests of lines 173-178 lead to a call of `apply`. -/
def triggers (opcode : Int) (ev : XEvent) : Bool :=
  decide (ev.type = GenericEvent ∧ ev.extension = opcode ∧
      ev.evtype = XI_HierarchyChanged) &&
    match ev.cookie with
    | none => false
    | some flags => flags &&& XIDeviceEnabled != 0

/-- A relevant notification in the words of the specification: its
extension is the negotiated opcode, its event type is
`XI_HierarchyChanged`, and the flags of its hierarchy data have
`XIDeviceEnabled` set. -/
def relevant (opcode : Int) (ev : XEvent) : Bool :=
  ev.extension == opcode && ev.evtype == XI_HierarchyChanged &&
    match ev.cookie with
    | none => false
    | some flags => flags &&& XIDeviceEnabled != 0

/-- What Xlib guarantees of a delivered event: `XGetEventData` succeeds
only on an event of type `GenericEvent`. -/
def cookieSound (ev : XEvent) : Prop :=
  ev.cookie.isSome = true → ev.type = GenericEvent

/-- Three notifications: a hierarchy event with a device enabled (and a
slave added), a hierarchy event with only the disabled and removed flags,
and a core event (`MappingNotify`, type 34) that carries no cookie. -/
def sampleEvents : List XEvent :=
  [⟨35, 131, 11, some (XIDeviceEnabled ||| XISlaveAdded)⟩,
   ⟨35, 131, 11, some (XIDeviceDisabled ||| XISlaveRemoved)⟩,
   ⟨34, 0, 0, none⟩]

/-- The environment `quietEnv` with the three notifications of
`sampleEvents` delivered. -/
def sampleEnv : Env :=
  ⟨true, some 131, true, true, fun _ => ForkOutcome.ran 0, sampleEvents⟩

/-- The four library calls of a successful setup, lines 159-166. -/
def setupOk : List Effect :=
  [Effect.XOpenDisplay true, Effect.XQueryExtension true,
    Effect.XIQueryVersion true, Effect.XISelectEvents true]

/-- The number of children created by `fork` and not yet reaped by
`waitpid` once the effects of a trace have happened, starting from `n`. -/
def live (n : Nat) : List Effect → Nat
  | [] => n
  | Effect.fork ok :: t => live (if ok then n + 1 else n) t
  | Effect.waitpid _ :: t => live (n - 1) t
  | _ :: t => live n t

/-- A trace is serial from `n` live children when every `fork` and every
`XNextEvent` happens with no child live and every `waitpid` with one. -/
def serial (n : Nat) : List Effect → Bool
  | [] => true
  | Effect.fork ok :: t => n == 0 && serial (if ok then 1 else 0) t
  | Effect.waitpid _ :: t => n == 1 && serial 0 t
  | Effect.XNextEvent :: t => n == 0 && serial 0 t
  | _ :: t => serial n t

/-- A word that `getopt` does not take for an option: it does not start
with `-`, or it is `-` alone. -/
def nonOption (w : String) : Bool :=
  match w.data with
  | '-' :: _ :: _ => false
  | _ => true

/-- A word `-v`, `-vv`, ...: a dash followed by one or more `v`. -/
def flagWord (w : String) : Bool :=
  match w.data with
  | '-' :: c :: cs => (c :: cs).all (fun x => x == 'v')
  | _ => false

/-- An option word other than `--` holding a character that is not `v`:
an unrecognized flag. -/
def badFlag (w : String) : Bool :=
  w != "--" &&
    match w.data with
    | '-' :: c :: cs => !(c :: cs).all (fun x => x == 'v')
    | _ => false

/-- An invalid invocation: after zero or more flag words the arguments
stop, or stop after `--`, (no command), or go on with an unrecognized
flag. -/
def InvalidInvocation (args : List String) : Prop :=
  ∃ pre : List String, (∀ w ∈ pre, flagWord w = true) ∧
    (args = pre ∨ args = pre ++ ["--"] ∨
      ∃ bad rest, badFlag bad = true ∧ args = pre ++ bad :: rest)

/-! ## Theorems -/

theorem apply_ran (verbose : Bool) (argv : List String) (status : Nat) :
    apply verbose argv (ForkOutcome.ran status) =
      if verbose || (!WIFEXITED status || WEXITSTATUS status != 0) then
        if (!WIFEXITED status || WEXITSTATUS status != 0) then
          ⟨spawned verbose argv status ++ [Effect.diag Proc.parent (statusLine status)],
            Outcome.exited 1⟩
        else
          ⟨spawned verbose argv status ++ [Effect.diag Proc.parent (statusLine status)],
            Outcome.returned⟩
      else ⟨spawned verbose argv status, Outcome.returned⟩ := by
  simp [apply, childSide, spawned, warnstatus, startLine]

theorem apply_unreaped (verbose : Bool) (argv : List String) (status garbage : Nat) :
    apply verbose argv (ForkOutcome.unreaped status garbage) =
      apply verbose argv (ForkOutcome.ran garbage) := rfl

theorem main_cases (env : Env) (args : List String) :
    main env args = usage ∨
      ∃ verbose cmd, parseArgs false args = some (verbose, cmd) ∧ cmd ≠ [] ∧
        main env args = run env verbose cmd := by
  unfold main
  cases hp : parseArgs false args with
  | none => simp
  | some vc =>
    obtain ⟨verbose, cmd⟩ := vc
    cases cmd with
    | nil => simp
    | cons w rest => right; exact ⟨verbose, w :: rest, rfl, by simp, by simp⟩

/-- When the status `waitpid` stores is that of an exit with status 0,
`apply` returns; after the wait it writes nothing when `verbose` is off and
the one line "Child exited with status 0." when it is on. -/
theorem apply_zero (verbose : Bool) (argv : List String) (status : Nat)
    (hexit : WIFEXITED status = true) (hz : WEXITSTATUS status = 0) :
    apply verbose argv (ForkOutcome.ran status) =
      ⟨spawned verbose argv status ++
        (if verbose then [Effect.diag Proc.parent "Child exited with status 0."] else []),
        Outcome.returned⟩ := by
  have hq : (!WIFEXITED status || WEXITSTATUS status != 0) = false := by
    simp [hexit, hz]
  have hl : statusLine status = "Child exited with status 0." := by
    simp [statusLine, hexit, hz]
    decide
  rw [apply_ran, hq, hl]
  cases verbose <;> simp

/-- C4, the code where it departs from the claim: `xiapply true` started
with `SIGCHLD` ignored and `verbose` off.  The child exits normally with
status 0 (wait status 0), `waitpid` fails and the variable `status` holds
32764; `apply` does not return silently: it writes
"Child exited on signal 124." and exits the program with code 1. -/
theorem apply_unreaped_zero :
    WIFEXITED 0 = true ∧ WEXITSTATUS 0 = 0 ∧
      apply false ["true"] (ForkOutcome.unreaped 0 32764) =
        ⟨[Effect.fork true, Effect.execvp ["true"] true, Effect.waitpid 32764,
            Effect.diag Proc.parent "Child exited on signal 124."],
          Outcome.exited 1⟩ := by
  decide

/-! ### Option parsing -/

theorem scanCluster_all (verbose : Bool) (cs : List Char)
    (h : cs.all (fun x => x == 'v') = true) :
    scanCluster verbose cs = some (verbose || !cs.isEmpty) := by
  induction cs generalizing verbose with
  | nil => simp [scanCluster]
  | cons c t ih =>
    simp only [List.all_cons, Bool.and_eq_true, beq_iff_eq] at h
    simp [scanCluster, h.1, ih true h.2]

theorem scanCluster_not_all (verbose : Bool) (cs : List Char)
    (h : cs.all (fun x => x == 'v') = false) :
    scanCluster verbose cs = none := by
  induction cs generalizing verbose with
  | nil => simp at h
  | cons c t ih =>
    by_cases hc : c = 'v'
    · subst hc
      have ht : t.all (fun x => x == 'v') = false := by simpa using h
      simp [scanCluster, ih true ht]
    · simp [scanCluster, hc]

theorem parseArgs_flagWord (verbose : Bool) (w : String) (rest : List String)
    (h : flagWord w = true) : parseArgs verbose (w :: rest) = parseArgs true rest := by
  have hne : w ≠ "--" := by
    intro he; subst he; revert h; decide
  unfold flagWord at h
  rw [parseArgs]
  simp only [hne, if_false]
  split at h
  · rename_i c cs hd
    rw [scanCluster_all verbose (c :: cs) h]
    simp
  · simp at h

theorem parseArgs_badFlag (verbose : Bool) (w : String) (rest : List String)
    (h : badFlag w = true) : parseArgs verbose (w :: rest) = none := by
  unfold badFlag at h
  simp only [Bool.and_eq_true, bne_iff_ne, ne_eq] at h
  obtain ⟨hne, h⟩ := h
  rw [parseArgs]
  simp only [hne, if_false]
  split at h
  · rename_i c cs hd
    rw [scanCluster_not_all verbose (c :: cs) (by simpa only [Bool.not_eq_true'] using h)]
  · simp at h

theorem parseArgs_nonOption (verbose : Bool) (w : String) (rest : List String)
    (h : nonOption w = true) : parseArgs verbose (w :: rest) = some (verbose, w :: rest) := by
  have hne : w ≠ "--" := by
    intro he; subst he; revert h; decide
  unfold nonOption at h
  rw [parseArgs]
  simp only [hne, if_false]
  split at h
  · simp at h
  · rfl

theorem parseArgs_flagWords (verbose : Bool) (pre tail : List String)
    (h : ∀ w ∈ pre, flagWord w = true) :
    parseArgs verbose (pre ++ tail) = parseArgs (verbose || !pre.isEmpty) tail := by
  induction pre generalizing verbose with
  | nil => simp
  | cons w t ih =>
    rw [List.cons_append, parseArgs_flagWord verbose w _ (h w (by simp)),
      ih true (fun x hx => h x (by simp [hx]))]
    simp

theorem parseArgs_invalid (args : List String) (h : InvalidInvocation args) :
    parseArgs false args = none ∨ ∃ v, parseArgs false args = some (v, []) := by
  obtain ⟨pre, hpre, h | h | ⟨bad, rest, hb, h⟩⟩ := h
  · right
    refine ⟨false || !pre.isEmpty, ?_⟩
    have := parseArgs_flagWords false pre [] hpre
    rw [h]
    simpa [parseArgs] using this
  · right
    refine ⟨false || !pre.isEmpty, ?_⟩
    rw [h, parseArgs_flagWords false pre _ hpre]
    simp [parseArgs]
  · left
    rw [h, parseArgs_flagWords false pre _ hpre, parseArgs_badFlag _ bad rest hb]

theorem invalid_of_parseArgs (verbose : Bool) (args : List String)
    (h : parseArgs verbose args = none ∨ ∃ v, parseArgs verbose args = some (v, [])) :
    InvalidInvocation args := by
  induction args generalizing verbose with
  | nil => exact ⟨[], by simp, Or.inl rfl⟩
  | cons a rest ih =>
    by_cases hdd : a = "--"
    · subst hdd
      have hp : parseArgs verbose ("--" :: rest) = some (verbose, rest) := by
        simp [parseArgs]
      rw [hp] at h
      have hr : rest = [] := by
        rcases h with h | ⟨v, h⟩
        · simp at h
        · simpa using (congrArg (fun o => o.map Prod.snd) h)
      subst hr
      exact ⟨[], by simp, Or.inr (Or.inl rfl)⟩
    · by_cases hf : flagWord a = true
      · rw [parseArgs_flagWord verbose a rest hf] at h
        obtain ⟨pre, hpre, hshape⟩ := ih true h
        refine ⟨a :: pre, ?_, ?_⟩
        · intro w hw
          rcases List.mem_cons.1 hw with rfl | hw
          · exact hf
          · exact hpre w hw
        · rcases hshape with h1 | h1 | ⟨bad, r, hb, h1⟩
          · exact Or.inl (by rw [h1])
          · exact Or.inr (Or.inl (by rw [h1]; rfl))
          · exact Or.inr (Or.inr ⟨bad, r, hb, by rw [h1]; rfl⟩)
      · by_cases hn : nonOption a = true
        · rw [parseArgs_nonOption verbose a rest hn] at h
          rcases h with h | ⟨v, h⟩
          · simp at h
          · simp at h
        · refine ⟨[], by simp, Or.inr (Or.inr ⟨a, rest, ?_, rfl⟩)⟩
          unfold badFlag
          unfold flagWord at hf
          unfold nonOption at hn
          simp only [Bool.and_eq_true, bne_iff_ne, ne_eq]
          refine ⟨hdd, ?_⟩
          split
          · rename_i c cs hd
            simp only [hd] at hf
            simp at hf ⊢
            by_cases hc : c = 'v'
            · exact Or.inr (hf hc)
            · exact Or.inl hc
          · rename_i hd
            split at hn
            · rename_i c cs hd2
              exact absurd hd2 (hd c cs)
            · simp at hn

theorem invalid_nil : InvalidInvocation [] :=
  ⟨[], by simp, Or.inl rfl⟩

theorem invalid_v : InvalidInvocation ["-v"] :=
  ⟨["-v"], by decide, Or.inl rfl⟩

theorem invalid_bad : InvalidInvocation ["-v", "-x", "true"] :=
  ⟨["-v"], by decide, Or.inr (Or.inr ⟨"-x", ["true"], by decide, rfl⟩)⟩

theorem main_of_invalid (env : Env) (args : List String) (h : InvalidInvocation args) :
    main env args = usage := by
  unfold main
  rcases parseArgs_invalid args h with hp | ⟨v, hp⟩
  · rw [hp]
  · rw [hp]; rfl

/-- C5: for every invalid invocation (an unrecognized flag among the words
before the command, or no command left after the options) `main` writes
the usage line and exits with code 2; the usage line is its only effect, so
neither the display is opened nor the command run. -/
theorem main_usage (env : Env) (args : List String) (h : InvalidInvocation args) :
    main env args =
      ⟨[Effect.diag Proc.parent "Usage: xiapply [-v] command [ command args ]"],
        Outcome.exited 2⟩ := by
  unfold main
  rcases parseArgs_invalid args h with hp | ⟨v, hp⟩
  · rw [hp]
    rfl
  · rw [hp]
    rfl

/-- C5 at `xiapply -v`. -/
theorem main_usage_witness :
    main quietEnv ["-v"] =
      ⟨[Effect.diag Proc.parent "Usage: xiapply [-v] command [ command args ]"],
        Outcome.exited 2⟩ :=
  main_usage quietEnv ["-v"] ⟨["-v"], by decide, Or.inl rfl⟩

theorem parseArgs_replicate (verbose : Bool) (k : Nat) (tail : List String) :
    parseArgs verbose (List.replicate k "-v" ++ tail) =
      parseArgs (verbose || decide (0 < k)) tail := by
  rw [parseArgs_flagWords verbose (List.replicate k "-v") tail]
  · cases k <;> simp [List.replicate]
  · intro w hw
    rw [(List.mem_replicate.1 hw).2]
    decide

/-- C9: on `-v` repeated `k` times, then optionally `--`, then a word `w`
that is not an option, then any words `rest`, option parsing yields
`verbose = (0 < k)` and the command vector `w :: rest`; `main` then behaves
as its body after parsing on exactly these two values, and when the setup
succeeds it calls `apply` on `w :: rest` right after it.  Nothing in `rest`
changes `verbose` or leads to `usage`. -/
theorem parse_command_suffix (k : Nat) (dd : Bool) (w : String) (rest : List String)
    (hw : nonOption w = true) :
    parseArgs false (List.replicate k "-v" ++ ((if dd then ["--"] else []) ++ w :: rest)) =
        some (decide (0 < k), w :: rest) ∧
      ∀ env : Env,
        main env (List.replicate k "-v" ++ ((if dd then ["--"] else []) ++ w :: rest)) =
            run env (decide (0 < k)) (w :: rest) ∧
          (env.display = true → env.versionOk = true → env.selectOk = true →
            ∀ opcode, env.extension = some opcode →
              ∃ tail, (run env (decide (0 < k)) (w :: rest)).trace =
                [Effect.XOpenDisplay true, Effect.XQueryExtension true,
                  Effect.XIQueryVersion true, Effect.XISelectEvents true] ++
                (apply (decide (0 < k)) (w :: rest) (env.children 0)).trace ++ tail) := by
  have hp : parseArgs false
      (List.replicate k "-v" ++ ((if dd then ["--"] else []) ++ w :: rest)) =
      some (decide (0 < k), w :: rest) := by
    rw [parseArgs_replicate]
    cases dd
    · simpa using parseArgs_nonOption _ w rest hw
    · simp [parseArgs]
  refine ⟨hp, fun env => ⟨?_, ?_⟩⟩
  · unfold main
    rw [hp]
    simp
  · intro hd hv hs opcode he
    unfold run
    simp only [hd, hv, hs, he, queryXI2, selectXI2Event, if_true]
    cases ho : (apply (decide (0 < k)) (w :: rest) (env.children 0)).outcome with
    | returned =>
      exact ⟨(eventLoop (decide (0 < k)) (w :: rest) opcode env.children 1 env.events).trace,
        by simp⟩
    | exited c => exact ⟨[], by simp⟩
    | blocked => exact ⟨[], by simp⟩

/-- C9 at `xiapply -v -v -- xinput -v --bogus`. -/
theorem parse_command_suffix_witness :
    parseArgs false (List.replicate 2 "-v" ++
        ((if true then ["--"] else []) ++ "xinput" :: ["-v", "--bogus"])) =
        some (decide (0 < 2), "xinput" :: ["-v", "--bogus"]) ∧
      ∀ env : Env,
        main env (List.replicate 2 "-v" ++
            ((if true then ["--"] else []) ++ "xinput" :: ["-v", "--bogus"])) =
            run env (decide (0 < 2)) ("xinput" :: ["-v", "--bogus"]) ∧
          (env.display = true → env.versionOk = true → env.selectOk = true →
            ∀ opcode, env.extension = some opcode →
              ∃ tail, (run env (decide (0 < 2)) ("xinput" :: ["-v", "--bogus"])).trace =
                [Effect.XOpenDisplay true, Effect.XQueryExtension true,
                  Effect.XIQueryVersion true, Effect.XISelectEvents true] ++
                (apply (decide (0 < 2)) ("xinput" :: ["-v", "--bogus"])
                  (env.children 0)).trace ++ tail) :=
  parse_command_suffix 2 true "xinput" ["-v", "--bogus"] (by decide)

/-! ### The command runner and the loop -/

theorem forks_append (a b : List Effect) : forks (a ++ b) = forks a + forks b := by
  induction a with
  | nil => simp [forks]
  | cons e t ih => cases e <;> simp [forks, ih]; omega

theorem apply_outcome (verbose : Bool) (argv : List String) (o : ForkOutcome) :
    (apply verbose argv o).outcome =
      if succeeds o = true then Outcome.returned else Outcome.exited 1 := by
  have hran : ∀ status, (apply verbose argv (ForkOutcome.ran status)).outcome =
      if succeeds (ForkOutcome.ran status) = true then Outcome.returned
      else Outcome.exited 1 := by
    intro status
    rw [apply_ran]
    cases verbose <;> cases h1 : WIFEXITED status <;>
      by_cases h2 : WEXITSTATUS status = 0 <;> simp [succeeds, h1, h2]
  cases o with
  | failed e => simp [apply, succeeds]
  | execFailed e =>
    have h1 : WIFEXITED 256 = true := by decide
    have h2 : WEXITSTATUS 256 = 1 := by decide
    simp [apply, succeeds, childSide, h1, h2]
  | ran status => exact hran status
  | unreaped s g => exact hran g

theorem apply_forks (verbose : Bool) (argv : List String) (o : ForkOutcome) :
    forks (apply verbose argv o).trace = 1 := by
  have hran : ∀ status, forks (apply verbose argv (ForkOutcome.ran status)).trace = 1 := by
    intro status
    rw [apply_ran]
    cases verbose <;> cases h1 : WIFEXITED status <;>
      by_cases h2 : WEXITSTATUS status = 0 <;> simp [h1, h2, spawned, forks]
  cases o with
  | failed e => cases verbose <;> simp [apply, forks]
  | execFailed e =>
    have h1 : WIFEXITED 256 = true := by decide
    have h2 : WEXITSTATUS 256 = 1 := by decide
    cases verbose <;> simp [apply, childSide, h1, h2, forks, warnstatus]
  | ran status => exact hran status
  | unreaped s g => exact hran g

theorem loopBody_eq (verbose : Bool) (cmd : List String) (opcode : Int)
    (children : Nat → ForkOutcome) (k : Nat) (ev : XEvent) :
    loopBody verbose cmd opcode children k ev =
      if triggers opcode ev = true then
        if succeeds (children k) = true then
          (⟨Effect.XGetEventData true :: (apply verbose cmd (children k)).trace ++
            [Effect.XFreeEventData], Outcome.returned⟩, k + 1)
        else
          (⟨Effect.XGetEventData true :: (apply verbose cmd (children k)).trace,
            Outcome.exited 1⟩, k + 1)
      else
        (⟨(loopBody verbose cmd opcode children k ev).1.trace, Outcome.returned⟩, k) := by
  unfold loopBody triggers
  by_cases hc : ev.type = GenericEvent ∧ ev.extension = opcode ∧
      ev.evtype = XI_HierarchyChanged
  · cases hk : ev.cookie with
    | none => simp [hc]
    | some flags =>
      by_cases hf : flags &&& XIDeviceEnabled = 0
      · simp [hc, hf]
      · by_cases hs : succeeds (children k) = true
        · simp [hc, hf, hs, apply_outcome]
        · simp [hc, hf, hs, apply_outcome]
  · simp [hc]

theorem loopBody_quiet (verbose : Bool) (cmd : List String) (opcode : Int)
    (children : Nat → ForkOutcome) (k : Nat) (ev : XEvent)
    (h : triggers opcode ev = false) :
    forks (loopBody verbose cmd opcode children k ev).1.trace = 0 := by
  unfold loopBody
  unfold triggers at h
  by_cases hc : ev.type = GenericEvent ∧ ev.extension = opcode ∧
      ev.evtype = XI_HierarchyChanged
  · cases hk : ev.cookie with
    | none => simp [hc, forks]
    | some flags =>
      by_cases hf : flags &&& XIDeviceEnabled = 0
      · simp [hc, hf, forks]
      · simp [hc, hk, hf] at h
  · simp [hc, forks]

theorem loopBody_forks (verbose : Bool) (cmd : List String) (opcode : Int)
    (children : Nat → ForkOutcome) (k : Nat) (ev : XEvent) :
    forks (loopBody verbose cmd opcode children k ev).1.trace =
      if triggers opcode ev = true then 1 else 0 := by
  cases ht : triggers opcode ev
  · simpa using loopBody_quiet verbose cmd opcode children k ev ht
  · rw [loopBody_eq, ht]
    by_cases hs : succeeds (children k) = true
    · simp [hs, forks, forks_append, apply_forks]
    · simp [hs, forks, apply_forks]

theorem triggers_eq_relevant (opcode : Int) (ev : XEvent) (h : cookieSound ev) :
    triggers opcode ev = relevant opcode ev := by
  unfold triggers relevant
  unfold cookieSound at h
  cases hk : ev.cookie with
  | none => simp
  | some flags =>
    have ht : ev.type = GenericEvent := h (by simp [hk])
    by_cases h1 : ev.extension = opcode <;>
      by_cases h2 : ev.evtype = XI_HierarchyChanged <;> simp [ht, h1, h2]

theorem eventLoop_cons (verbose : Bool) (cmd : List String) (opcode : Int)
    (children : Nat → ForkOutcome) (k : Nat) (ev : XEvent) (evs : List XEvent) :
    eventLoop verbose cmd opcode children k (ev :: evs) =
      if triggers opcode ev = true ∧ succeeds (children k) = false then
        ⟨Effect.XNextEvent :: (loopBody verbose cmd opcode children k ev).1.trace,
          Outcome.exited 1⟩
      else
        ⟨Effect.XNextEvent :: (loopBody verbose cmd opcode children k ev).1.trace ++
          (eventLoop verbose cmd opcode children
            (if triggers opcode ev = true then k + 1 else k) evs).trace,
          (eventLoop verbose cmd opcode children
            (if triggers opcode ev = true then k + 1 else k) evs).outcome⟩ := by
  have hb := loopBody_eq verbose cmd opcode children k ev
  rw [eventLoop]
  cases ht : triggers opcode ev
  · rw [ht] at hb
    simp only [Bool.false_eq_true, if_false] at hb
    have h1 : (loopBody verbose cmd opcode children k ev).1.outcome = Outcome.returned := by
      rw [hb]
    have h2 : (loopBody verbose cmd opcode children k ev).2 = k := by
      rw [hb]
    simp [h1, h2]
  · rw [ht] at hb
    cases hs : succeeds (children k)
    · rw [hs] at hb
      simp only [Bool.false_eq_true, if_false, if_true] at hb
      have h1 : (loopBody verbose cmd opcode children k ev).1.outcome = Outcome.exited 1 := by
        rw [hb]
      simp [h1]
    · rw [hs] at hb
      simp only [if_true] at hb
      have h1 : (loopBody verbose cmd opcode children k ev).1.outcome = Outcome.returned := by
        rw [hb]
      have h2 : (loopBody verbose cmd opcode children k ev).2 = k + 1 := by
        rw [hb]
      simp [h1, h2]

theorem eventLoop_all_succeed (verbose : Bool) (cmd : List String) (opcode : Int)
    (children : Nat → ForkOutcome) (hs : ∀ k, succeeds (children k) = true)
    (evs : List XEvent) (k : Nat) :
    forks (eventLoop verbose cmd opcode children k evs).trace =
        (evs.filter (triggers opcode)).length ∧
      (eventLoop verbose cmd opcode children k evs).outcome = Outcome.blocked := by
  induction evs generalizing k with
  | nil => simp [eventLoop, forks]
  | cons ev evs ih =>
    rw [eventLoop_cons]
    simp only [hs k, Bool.true_eq_false, and_false, if_false]
    refine ⟨?_, (ih _).2⟩
    have hf := loopBody_forks verbose cmd opcode children k ev
    cases ht : triggers opcode ev
    · rw [ht] at hf
      simp only [Bool.false_eq_true, if_false] at hf
      simp [forks, forks_append, hf, (ih k).1, List.filter_cons, ht]
    · rw [ht] at hf
      simp only [if_true] at hf
      simp [forks, forks_append, hf, (ih (k + 1)).1, List.filter_cons, ht]
      omega

theorem filter_triggers_eq (opcode : Int) (evs : List XEvent)
    (h : ∀ ev ∈ evs, cookieSound ev) :
    evs.filter (triggers opcode) = evs.filter (relevant opcode) := by
  apply List.filter_congr
  intro ev hev
  exact triggers_eq_relevant opcode ev (h ev hev)

theorem run_setup_ok (env : Env) (verbose : Bool) (cmd : List String) (opcode : Int)
    (hd : env.display = true) (he : env.extension = some opcode)
    (hv : env.versionOk = true) (hs : env.selectOk = true) :
    run env verbose cmd =
      if succeeds (env.children 0) = true then
        ⟨[Effect.XOpenDisplay true, Effect.XQueryExtension true,
            Effect.XIQueryVersion true, Effect.XISelectEvents true] ++
          (apply verbose cmd (env.children 0)).trace ++
          (eventLoop verbose cmd opcode env.children 1 env.events).trace,
          (eventLoop verbose cmd opcode env.children 1 env.events).outcome⟩
      else
        ⟨[Effect.XOpenDisplay true, Effect.XQueryExtension true,
            Effect.XIQueryVersion true, Effect.XISelectEvents true] ++
          (apply verbose cmd (env.children 0)).trace, Outcome.exited 1⟩ := by
  unfold run
  by_cases h : succeeds (env.children 0) = true
  · simp [hd, he, hv, hs, queryXI2, selectXI2Event, apply_outcome, h]
  · simp [hd, he, hv, hs, queryXI2, selectXI2Event, apply_outcome, h]

/-- C1: when the setup succeeds, every run of the command exits with
status 0 and the delivered notifications are as Xlib hands them out, the
loop body calls `apply` once on a relevant notification and not at all on
any other; so the loop makes as many calls as there are relevant
notifications, the program as a whole one more (the initial run), and it
then waits for the next notification. -/
theorem applies_per_notification (env : Env) (verbose : Bool) (cmd : List String)
    (opcode : Int) (hd : env.display = true) (he : env.extension = some opcode)
    (hv : env.versionOk = true) (hs : env.selectOk = true)
    (hzero : ∀ k, ∃ status, env.children k = ForkOutcome.ran status ∧
      WIFEXITED status = true ∧ WEXITSTATUS status = 0)
    (hsound : ∀ ev ∈ env.events, cookieSound ev) :
    (∀ ev ∈ env.events, ∀ k,
        forks (loopBody verbose cmd opcode env.children k ev).1.trace =
          if relevant opcode ev = true then 1 else 0) ∧
      forks (eventLoop verbose cmd opcode env.children 1 env.events).trace =
        (env.events.filter (relevant opcode)).length ∧
      forks (run env verbose cmd).trace =
        1 + (env.events.filter (relevant opcode)).length ∧
      (run env verbose cmd).outcome = Outcome.blocked := by
  have hsucc : ∀ k, succeeds (env.children k) = true := by
    intro k
    obtain ⟨status, hc, h1, h2⟩ := hzero k
    simp [hc, succeeds, h1, h2]
  have hloop := eventLoop_all_succeed verbose cmd opcode env.children hsucc env.events 1
  rw [filter_triggers_eq opcode env.events hsound] at hloop
  refine ⟨?_, hloop.1, ?_, ?_⟩
  · intro ev hev k
    rw [loopBody_forks, triggers_eq_relevant opcode ev (hsound ev hev)]
  · rw [run_setup_ok env verbose cmd opcode hd he hv hs]
    simp only [hsucc 0, if_true]
    rw [forks_append, forks_append, apply_forks, hloop.1]
    simp [forks]
  · rw [run_setup_ok env verbose cmd opcode hd he hv hs]
    simp only [hsucc 0, if_true]
    exact hloop.2

theorem sampleEvents_sound : ∀ ev ∈ sampleEnv.events, cookieSound ev := by
  intro ev hev
  simp only [sampleEnv, sampleEvents, List.mem_cons, List.mem_singleton, List.mem_nil_iff,
    or_false] at hev
  rcases hev with rfl | rfl | rfl <;> simp [cookieSound, GenericEvent]

/-- C1 on three notifications of which one is relevant: two calls of
`fork` in all. -/
theorem applies_per_notification_witness :
    (∀ ev ∈ sampleEnv.events, ∀ k,
        forks (loopBody true ["true"] 131 sampleEnv.children k ev).1.trace =
          if relevant 131 ev = true then 1 else 0) ∧
      forks (eventLoop true ["true"] 131 sampleEnv.children 1 sampleEnv.events).trace =
        (sampleEnv.events.filter (relevant 131)).length ∧
      forks (run sampleEnv true ["true"]).trace =
        1 + (sampleEnv.events.filter (relevant 131)).length ∧
      (run sampleEnv true ["true"]).outcome = Outcome.blocked :=
  applies_per_notification sampleEnv true ["true"] 131 rfl rfl rfl rfl
    (fun _ => ⟨0, rfl, by decide, by decide⟩) sampleEvents_sound

theorem sample_relevant_count : (sampleEnv.events.filter (relevant 131)).length = 1 := by
  decide

/-! ### Order of the effects -/

theorem main_valid (args : List String) (h : ¬ InvalidInvocation args) :
    ∃ verbose cmd, parseArgs false args = some (verbose, cmd) ∧ cmd ≠ [] ∧
      ∀ env, main env args = run env verbose cmd := by
  cases hp : parseArgs false args with
  | none => exact absurd (invalid_of_parseArgs false args (Or.inl hp)) h
  | some vc =>
    obtain ⟨verbose, cmd⟩ := vc
    cases cmd with
    | nil => exact absurd (invalid_of_parseArgs false args (Or.inr ⟨verbose, hp⟩)) h
    | cons w rest =>
      refine ⟨verbose, w :: rest, rfl, by simp, fun env => ?_⟩
      unfold main
      rw [hp]
      simp

theorem append_of_not_mem (x : Effect) (u l pre post : List Effect) (hx : x ∉ u)
    (h : u ++ l = pre ++ x :: post) : ∃ m, pre = u ++ m := by
  induction u generalizing pre with
  | nil => exact ⟨pre, rfl⟩
  | cons a u ih =>
    cases pre with
    | nil =>
      simp only [List.cons_append, List.nil_append, List.cons.injEq] at h
      exact absurd (show x ∈ a :: u by simp [h.1]) hx
    | cons b pre =>
      simp only [List.cons_append, List.cons.injEq] at h
      obtain ⟨m, hm⟩ := ih pre (fun hm => hx (by simp [hm])) h.2
      exact ⟨m, by rw [h.1, hm]; rfl⟩

theorem apply_no_wait (verbose : Bool) (argv : List String) (o : ForkOutcome) :
    Effect.XNextEvent ∉ (apply verbose argv o).trace := by
  have hran : ∀ status,
      Effect.XNextEvent ∉ (apply verbose argv (ForkOutcome.ran status)).trace := by
    intro status
    rw [apply_ran]
    cases verbose <;> cases h1 : WIFEXITED status <;>
      by_cases h2 : WEXITSTATUS status = 0 <;> simp [h1, h2, spawned]
  cases o with
  | failed e => cases verbose <;> simp [apply]
  | execFailed e =>
    have h1 : WIFEXITED 256 = true := by decide
    have h2 : WEXITSTATUS 256 = 1 := by decide
    cases verbose <;> simp [apply, childSide, h1, h2, warnstatus]
  | ran status => exact hran status
  | unreaped s g => exact hran g

theorem apply_of_succeeds (verbose : Bool) (argv : List String) (o : ForkOutcome)
    (h : succeeds o = true) :
    ∃ status, WIFEXITED status = true ∧ WEXITSTATUS status = 0 ∧
      apply verbose argv o =
        ⟨spawned verbose argv status ++
          (if verbose then [Effect.diag Proc.parent "Child exited with status 0."] else []),
          Outcome.returned⟩ := by
  cases o with
  | failed e => simp [succeeds] at h
  | execFailed e => simp [succeeds] at h
  | ran status =>
    simp only [succeeds, Bool.and_eq_true, beq_iff_eq] at h
    exact ⟨status, h.1, h.2, apply_zero verbose argv status h.1 h.2⟩
  | unreaped s g =>
    simp only [succeeds, Bool.and_eq_true, beq_iff_eq] at h
    exact ⟨g, h.1, h.2, by rw [apply_unreaped]; exact apply_zero verbose argv g h.1 h.2⟩

/-- C6: on a valid invocation whose setup succeeds, the trace of `main` is
the four setup calls, then the effects of the first `apply` on the parsed
command, then the rest; no `XNextEvent` and exactly one `fork` occur up to
the end of that first `apply`; and every `XNextEvent` of the trace comes
after a successful `fork`, the `execvp` of the command and the `waitpid`
that followed it. -/
theorem first_apply_before_wait (env : Env) (args : List String) (opcode : Int)
    (hvalid : ¬ InvalidInvocation args)
    (hd : env.display = true) (he : env.extension = some opcode)
    (hv : env.versionOk = true) (hs : env.selectOk = true) :
    ∃ verbose cmd, parseArgs false args = some (verbose, cmd) ∧ cmd ≠ [] ∧
      (∃ tail, (main env args).trace =
        setupOk ++ (apply verbose cmd (env.children 0)).trace ++ tail) ∧
      Effect.XNextEvent ∉ setupOk ++ (apply verbose cmd (env.children 0)).trace ∧
      forks (setupOk ++ (apply verbose cmd (env.children 0)).trace) = 1 ∧
      ∀ pre post, (main env args).trace = pre ++ Effect.XNextEvent :: post →
        ∃ a status b, pre = a ++ Effect.fork true :: Effect.execvp cmd true ::
          Effect.waitpid status :: b := by
  obtain ⟨verbose, cmd, hp, hc, hm⟩ := main_valid args hvalid
  have hnw : Effect.XNextEvent ∉ setupOk ++ (apply verbose cmd (env.children 0)).trace := by
    have := apply_no_wait verbose cmd (env.children 0)
    simp [setupOk, this]
  have hrun := run_setup_ok env verbose cmd opcode hd he hv hs
  refine ⟨verbose, cmd, hp, hc, ?_, hnw, ?_, ?_⟩
  · rw [hm env, hrun]
    by_cases h : succeeds (env.children 0) = true
    · exact ⟨(eventLoop verbose cmd opcode env.children 1 env.events).trace, by simp [h, setupOk]⟩
    · exact ⟨[], by simp [h, setupOk]⟩
  · rw [forks_append, apply_forks]
    simp [setupOk, forks]
  · intro pre post hpre
    rw [hm env, hrun] at hpre
    by_cases h : succeeds (env.children 0) = true
    · simp only [h, if_true] at hpre
      obtain ⟨m, hm2⟩ := append_of_not_mem Effect.XNextEvent _ _ pre post hnw hpre
      obtain ⟨status, _, _, ha⟩ := apply_of_succeeds verbose cmd (env.children 0) h
      rw [hm2, ha]
      refine ⟨setupOk ++ (if verbose then [Effect.diag Proc.parent (startLine cmd)] else []),
        status, (if verbose then [Effect.diag Proc.parent "Child exited with status 0."]
          else []) ++ m, ?_⟩
      simp [spawned, List.append_assoc]
    · simp only [h, if_false] at hpre
      exfalso
      apply hnw
      have : Effect.XNextEvent ∈ pre ++ Effect.XNextEvent :: post := by simp
      rw [← hpre] at this
      exact this

/-- C6 at `xiapply true` with every call succeeding and three
notifications delivered. -/
theorem first_apply_before_wait_witness :
    ∃ verbose cmd, parseArgs false ["true"] = some (verbose, cmd) ∧ cmd ≠ [] ∧
      (∃ tail, (main sampleEnv ["true"]).trace =
        setupOk ++ (apply verbose cmd (sampleEnv.children 0)).trace ++ tail) ∧
      Effect.XNextEvent ∉ setupOk ++ (apply verbose cmd (sampleEnv.children 0)).trace ∧
      forks (setupOk ++ (apply verbose cmd (sampleEnv.children 0)).trace) = 1 ∧
      ∀ pre post, (main sampleEnv ["true"]).trace = pre ++ Effect.XNextEvent :: post →
        ∃ a status b, pre = a ++ Effect.fork true :: Effect.execvp cmd true ::
          Effect.waitpid status :: b :=
  first_apply_before_wait sampleEnv ["true"] 131
    (fun h => by
      have := parseArgs_invalid ["true"] h
      revert this
      decide)
    rfl rfl rfl rfl

/-! ### One child at a time -/

theorem live_append (n : Nat) (a b : List Effect) :
    live n (a ++ b) = live (live n a) b := by
  induction a generalizing n with
  | nil => rfl
  | cons e t ih => cases e <;> simp [live, ih]

theorem serial_append (n : Nat) (a b : List Effect) (ha : serial n a = true)
    (hb : serial (live n a) b = true) : serial n (a ++ b) = true := by
  induction a generalizing n with
  | nil => simpa [live] using hb
  | cons e t ih =>
    cases e with
    | fork ok =>
      simp only [serial, Bool.and_eq_true, beq_iff_eq] at ha
      obtain ⟨h0, ha⟩ := ha
      subst h0
      cases ok
      · simp only [List.cons_append, serial, Bool.and_eq_true, beq_iff_eq, true_and]
        exact ih 0 (by simpa using ha) (by simpa [live] using hb)
      · simp only [List.cons_append, serial, Bool.and_eq_true, beq_iff_eq, true_and]
        exact ih 1 (by simpa using ha) (by simpa [live] using hb)
    | waitpid st =>
      simp only [serial, Bool.and_eq_true, beq_iff_eq] at ha
      obtain ⟨h1, ha⟩ := ha
      subst h1
      simp only [List.cons_append, serial, Bool.and_eq_true, beq_iff_eq, true_and]
      exact ih 0 ha (by simpa [live] using hb)
    | XNextEvent =>
      simp only [serial, Bool.and_eq_true, beq_iff_eq] at ha
      obtain ⟨h0, ha⟩ := ha
      subst h0
      simp only [List.cons_append, serial, Bool.and_eq_true, beq_iff_eq, true_and]
      exact ih 0 ha (by simpa [live] using hb)
    | diag p l => exact ih n (by simpa [serial] using ha) (by simpa [live] using hb)
    | XOpenDisplay ok => exact ih n (by simpa [serial] using ha) (by simpa [live] using hb)
    | XQueryExtension ok => exact ih n (by simpa [serial] using ha) (by simpa [live] using hb)
    | XIQueryVersion ok => exact ih n (by simpa [serial] using ha) (by simpa [live] using hb)
    | XISelectEvents ok => exact ih n (by simpa [serial] using ha) (by simpa [live] using hb)
    | execvp a ok => exact ih n (by simpa [serial] using ha) (by simpa [live] using hb)
    | XGetEventData ok => exact ih n (by simpa [serial] using ha) (by simpa [live] using hb)
    | XFreeEventData => exact ih n (by simpa [serial] using ha) (by simpa [live] using hb)

theorem serial_initial (n : Nat) (t : List Effect) (hn : n ≤ 1) (ht : serial n t = true)
    (pre post : List Effect) (h : t = pre ++ post) :
    live n pre ≤ 1 ∧
      ∀ e rest, post = e :: rest →
        (e = Effect.fork true ∨ e = Effect.fork false ∨ e = Effect.XNextEvent) →
          live n pre = 0 := by
  induction pre generalizing n t with
  | nil =>
    refine ⟨by simpa [live] using hn, ?_⟩
    intro e rest hpost he
    simp only [List.nil_append] at h
    rw [h, hpost] at ht
    rcases he with rfl | rfl | rfl <;>
      simp only [serial, Bool.and_eq_true, beq_iff_eq] at ht <;> simpa [live] using ht.1
  | cons a pre ih =>
    cases t with
    | nil => simp at h
    | cons b t =>
      simp only [List.cons_append, List.cons.injEq] at h
      obtain ⟨hab, h⟩ := h
      subst hab
      cases b with
      | fork ok =>
        simp only [serial, Bool.and_eq_true, beq_iff_eq] at ht
        obtain ⟨h0, ht⟩ := ht
        subst h0
        cases ok
        · simpa [live] using ih 0 t (by omega) (by simpa using ht) h
        · simpa [live] using ih 1 t (by omega) (by simpa using ht) h
      | waitpid st =>
        simp only [serial, Bool.and_eq_true, beq_iff_eq] at ht
        obtain ⟨h1, ht⟩ := ht
        subst h1
        simpa [live] using ih 0 t (by omega) ht h
      | XNextEvent =>
        simp only [serial, Bool.and_eq_true, beq_iff_eq] at ht
        obtain ⟨h0, ht⟩ := ht
        subst h0
        simpa [live] using ih 0 t (by omega) ht h
      | diag p l => simpa [live] using ih n t hn (by simpa [serial] using ht) h
      | XOpenDisplay ok => simpa [live] using ih n t hn (by simpa [serial] using ht) h
      | XQueryExtension ok => simpa [live] using ih n t hn (by simpa [serial] using ht) h
      | XIQueryVersion ok => simpa [live] using ih n t hn (by simpa [serial] using ht) h
      | XISelectEvents ok => simpa [live] using ih n t hn (by simpa [serial] using ht) h
      | execvp a ok => simpa [live] using ih n t hn (by simpa [serial] using ht) h
      | XGetEventData ok => simpa [live] using ih n t hn (by simpa [serial] using ht) h
      | XFreeEventData => simpa [live] using ih n t hn (by simpa [serial] using ht) h

theorem apply_calm (verbose : Bool) (argv : List String) (o : ForkOutcome) :
    serial 0 (apply verbose argv o).trace = true ∧ live 0 (apply verbose argv o).trace = 0 := by
  have hran : ∀ status,
      serial 0 (apply verbose argv (ForkOutcome.ran status)).trace = true ∧
        live 0 (apply verbose argv (ForkOutcome.ran status)).trace = 0 := by
    intro status
    rw [apply_ran]
    cases verbose <;> cases h1 : WIFEXITED status <;>
      by_cases h2 : WEXITSTATUS status = 0 <;> simp [h1, h2, spawned, serial, live]
  cases o with
  | failed e => cases verbose <;> simp [apply, serial, live]
  | execFailed e =>
    have h1 : WIFEXITED 256 = true := by decide
    have h2 : WEXITSTATUS 256 = 1 := by decide
    cases verbose <;> simp [apply, childSide, h1, h2, warnstatus, serial, live]
  | ran status => exact hran status
  | unreaped s g => exact hran g

theorem calm_append (a b : List Effect)
    (ha : serial 0 a = true ∧ live 0 a = 0) (hb : serial 0 b = true ∧ live 0 b = 0) :
    serial 0 (a ++ b) = true ∧ live 0 (a ++ b) = 0 := by
  refine ⟨serial_append 0 a b ha.1 (by rw [ha.2]; exact hb.1), ?_⟩
  rw [live_append, ha.2, hb.2]

theorem loopBody_calm (verbose : Bool) (cmd : List String) (opcode : Int)
    (children : Nat → ForkOutcome) (k : Nat) (ev : XEvent) :
    serial 0 (loopBody verbose cmd opcode children k ev).1.trace = true ∧
      live 0 (loopBody verbose cmd opcode children k ev).1.trace = 0 := by
  have ha := apply_calm verbose cmd (children k)
  unfold loopBody
  by_cases hc : ev.type = GenericEvent ∧ ev.extension = opcode ∧
      ev.evtype = XI_HierarchyChanged
  · cases hk : ev.cookie with
    | none => simp [hc, serial, live]
    | some flags =>
      by_cases hf : flags &&& XIDeviceEnabled = 0
      · simp [hc, hf, serial, live]
      · simp only [hc, and_self, if_true, bne_iff_ne, ne_eq, hf, not_false_eq_true]
        cases ho : (apply verbose cmd (children k)).outcome with
        | returned =>
          exact calm_append [Effect.XGetEventData true] _ (by simp [serial, live])
            (calm_append _ [Effect.XFreeEventData] ha (by simp [serial, live]))
        | exited c => exact calm_append [Effect.XGetEventData true] _ (by simp [serial, live]) ha
        | blocked => exact calm_append [Effect.XGetEventData true] _ (by simp [serial, live]) ha
  · simp [hc, serial, live]

theorem eventLoop_calm (verbose : Bool) (cmd : List String) (opcode : Int)
    (children : Nat → ForkOutcome) (k : Nat) (evs : List XEvent) :
    serial 0 (eventLoop verbose cmd opcode children k evs).trace = true ∧
      live 0 (eventLoop verbose cmd opcode children k evs).trace = 0 := by
  induction evs generalizing k with
  | nil => simp [eventLoop, serial, live]
  | cons ev evs ih =>
    have hb := loopBody_calm verbose cmd opcode children k ev
    rw [eventLoop_cons]
    split
    · exact calm_append [Effect.XNextEvent] _ (by simp [serial, live]) hb
    · exact calm_append [Effect.XNextEvent] _ (by simp [serial, live])
        (calm_append _ _ hb (ih _))

theorem run_calm (env : Env) (verbose : Bool) (cmd : List String) :
    serial 0 (run env verbose cmd).trace = true ∧ live 0 (run env verbose cmd).trace = 0 := by
  cases hd : env.display
  · simp [run, hd, serial, live]
  · cases he : env.extension with
    | none => simp [run, hd, he, queryXI2, serial, live]
    | some opcode =>
      cases hv : env.versionOk
      · simp [run, hd, he, hv, queryXI2, serial, live]
      · cases hs : env.selectOk
        · simp [run, hd, he, hv, hs, queryXI2, selectXI2Event, serial, live]
        · rw [run_setup_ok env verbose cmd opcode hd he hv hs]
          have h0 : serial 0 [Effect.XOpenDisplay true, Effect.XQueryExtension true,
              Effect.XIQueryVersion true, Effect.XISelectEvents true] = true ∧
              live 0 [Effect.XOpenDisplay true, Effect.XQueryExtension true,
              Effect.XIQueryVersion true, Effect.XISelectEvents true] = 0 := by
            simp [serial, live]
          have ha := apply_calm verbose cmd (env.children 0)
          split
          · exact calm_append _ _ (calm_append _ _ h0 ha) (eventLoop_calm _ _ _ _ _ _)
          · exact calm_append _ _ h0 ha

theorem main_calm (env : Env) (args : List String) :
    serial 0 (main env args).trace = true ∧ live 0 (main env args).trace = 0 := by
  rcases main_cases env args with hu | ⟨verbose, cmd, _, _, hm⟩
  · rw [hu]; simp [usage, serial, live]
  · rw [hm]; exact run_calm env verbose cmd

theorem waitpid_of_live_lt (n : Nat) (t : List Effect) (h : live n t < n) :
    ∃ status, Effect.waitpid status ∈ t := by
  induction t generalizing n with
  | nil => simp [live] at h
  | cons e t ih =>
    cases e with
    | waitpid st => exact ⟨st, by simp⟩
    | fork ok =>
      cases ok
      · obtain ⟨st, hst⟩ := ih n (by simpa [live] using h)
        exact ⟨st, by simp [hst]⟩
      · have h2 : live (n + 1) t < n + 1 := by
          have : live (n + 1) t < n := by simpa [live] using h
          omega
        obtain ⟨st, hst⟩ := ih (n + 1) h2
        exact ⟨st, by simp [hst]⟩
    | diag p l => obtain ⟨st, hst⟩ := ih n (by simpa [live] using h); exact ⟨st, by simp [hst]⟩
    | XOpenDisplay ok =>
      obtain ⟨st, hst⟩ := ih n (by simpa [live] using h); exact ⟨st, by simp [hst]⟩
    | XQueryExtension ok =>
      obtain ⟨st, hst⟩ := ih n (by simpa [live] using h); exact ⟨st, by simp [hst]⟩
    | XIQueryVersion ok =>
      obtain ⟨st, hst⟩ := ih n (by simpa [live] using h); exact ⟨st, by simp [hst]⟩
    | XISelectEvents ok =>
      obtain ⟨st, hst⟩ := ih n (by simpa [live] using h); exact ⟨st, by simp [hst]⟩
    | execvp a ok =>
      obtain ⟨st, hst⟩ := ih n (by simpa [live] using h); exact ⟨st, by simp [hst]⟩
    | XNextEvent => obtain ⟨st, hst⟩ := ih n (by simpa [live] using h); exact ⟨st, by simp [hst]⟩
    | XGetEventData ok =>
      obtain ⟨st, hst⟩ := ih n (by simpa [live] using h); exact ⟨st, by simp [hst]⟩
    | XFreeEventData =>
      obtain ⟨st, hst⟩ := ih n (by simpa [live] using h); exact ⟨st, by simp [hst]⟩

/-- C7: in every execution, after any initial part of the trace at most
one child has been created and not yet reaped; every `fork` and every
`XNextEvent` happens when none is; and inside `apply` every successful
`fork` is followed by a `waitpid`, so that `apply` ends with no child
left. -/
theorem one_child_at_a_time (env : Env) (args : List String) :
    (∀ pre post, (main env args).trace = pre ++ post → live 0 pre ≤ 1) ∧
      (∀ pre e post, (main env args).trace = pre ++ e :: post →
        (e = Effect.fork true ∨ e = Effect.fork false ∨ e = Effect.XNextEvent) →
          live 0 pre = 0) ∧
      ∀ verbose argv o,
        live 0 (apply verbose argv o).trace = 0 ∧
          ∀ pre post, (apply verbose argv o).trace = pre ++ Effect.fork true :: post →
            ∃ status, Effect.waitpid status ∈ post := by
  have hm := main_calm env args
  refine ⟨?_, ?_, ?_⟩
  · intro pre post h
    exact (serial_initial 0 _ (by omega) hm.1 pre post h).1
  · intro pre e post h he
    exact (serial_initial 0 _ (by omega) hm.1 pre (e :: post) h).2 e post rfl he
  · intro verbose argv o
    have ha := apply_calm verbose argv o
    refine ⟨ha.2, ?_⟩
    intro pre post h
    have h0 := (serial_initial 0 _ (by omega) ha.1 pre (Effect.fork true :: post) h).2
      (Effect.fork true) post rfl (Or.inl rfl)
    have hl := ha.2
    rw [h, live_append, h0] at hl
    apply waitpid_of_live_lt 1 post
    have : live 1 post = 0 := by simpa [live] using hl
    omega

/-! ### Exit codes -/

theorem eventLoop_outcome (verbose : Bool) (cmd : List String) (opcode : Int)
    (children : Nat → ForkOutcome) (k : Nat) (evs : List XEvent) :
    ((eventLoop verbose cmd opcode children k evs).outcome = Outcome.blocked ∨
        (eventLoop verbose cmd opcode children k evs).outcome = Outcome.exited 1) ∧
      ((eventLoop verbose cmd opcode children k evs).outcome = Outcome.blocked →
        ∀ j, k ≤ j → j < k + forks (eventLoop verbose cmd opcode children k evs).trace →
          succeeds (children j) = true) := by
  induction evs generalizing k with
  | nil =>
    simp only [eventLoop, forks, true_or, true_and]
    intro _ j h1 h2
    omega
  | cons ev evs ih =>
    have hf := loopBody_forks verbose cmd opcode children k ev
    rw [eventLoop_cons]
    cases ht : triggers opcode ev
    · rw [ht] at hf
      simp only [Bool.false_eq_true, if_false] at hf
      simp only [Bool.false_eq_true, false_and, if_false]
      refine ⟨(ih k).1, ?_⟩
      intro hb j hkj hj
      apply (ih k).2 hb j hkj
      simp [forks, forks_append, hf] at hj
      omega
    · rw [ht] at hf
      simp only [if_true] at hf
      cases hs : succeeds (children k)
      · simp
      · simp only [Bool.true_eq_false, and_false, if_false, if_true]
        refine ⟨(ih (k + 1)).1, ?_⟩
        intro hb j hkj hj
        simp [forks, forks_append, hf] at hj
        by_cases hjk : j = k
        · rw [hjk]; exact hs
        · exact (ih (k + 1)).2 hb j (by omega) (by omega)

theorem run_outcome (env : Env) (verbose : Bool) (cmd : List String) :
    ((run env verbose cmd).outcome = Outcome.blocked ∨
        (run env verbose cmd).outcome = Outcome.exited 1) ∧
      ((run env verbose cmd).outcome = Outcome.blocked →
        (env.display = true ∧ env.extension ≠ none ∧ env.versionOk = true ∧
          env.selectOk = true) ∧
        ∀ j, j < forks (run env verbose cmd).trace → succeeds (env.children j) = true) := by
  cases hd : env.display
  · simp [run, hd]
  · cases he : env.extension with
    | none => simp [run, hd, he, queryXI2]
    | some opcode =>
      cases hv : env.versionOk
      · simp [run, hd, he, hv, queryXI2]
      · cases hs : env.selectOk
        · simp [run, hd, he, hv, hs, queryXI2, selectXI2Event]
        · rw [run_setup_ok env verbose cmd opcode hd he hv hs]
          have hl := eventLoop_outcome verbose cmd opcode env.children 1 env.events
          cases h0 : succeeds (env.children 0)
          · simp
          · simp only [if_true]
            refine ⟨hl.1, ?_⟩
            intro hb
            refine ⟨by simp, ?_⟩
            intro j hj
            simp [forks_append, apply_forks, forks] at hj
            by_cases hj0 : j = 0
            · rw [hj0]; exact h0
            · exact hl.2 hb j (by omega) (by omega)

/-- C8: `main` never returns; when it exits the code is 1 or 2, never 0;
the code is 2 exactly on an invalid invocation; and on a valid invocation
the code is 1 as soon as the display cannot be opened, the extension or its
version is missing, the subscription fails, or one of the runs of the
command that were made did not succeed (`fork` or `execvp` failed, or the
status read after `waitpid` is that of a non-zero exit or of a signal). -/
theorem exit_codes (env : Env) (args : List String) :
    (main env args).outcome ≠ Outcome.returned ∧
      (∀ c, (main env args).outcome = Outcome.exited c → c = 1 ∨ c = 2) ∧
      ((main env args).outcome = Outcome.exited 2 ↔ InvalidInvocation args) ∧
      (¬ InvalidInvocation args →
        ((env.display = false ∨ env.extension = none ∨ env.versionOk = false ∨
            env.selectOk = false) → (main env args).outcome = Outcome.exited 1) ∧
        ((∃ j, j < forks (main env args).trace ∧ succeeds (env.children j) = false) →
          (main env args).outcome = Outcome.exited 1)) := by
  by_cases hi : InvalidInvocation args
  · have hm := main_of_invalid env args hi
    rw [hm]
    simp [hi, usage]
  · obtain ⟨verbose, cmd, _, _, hm⟩ := main_valid args hi
    rw [hm env]
    have hr := run_outcome env verbose cmd
    refine ⟨?_, ?_, ?_, ?_⟩
    · rcases hr.1 with h | h <;> simp [h]
    · intro c hc
      rcases hr.1 with h | h
      · rw [h] at hc; simp at hc
      · rw [h] at hc
        left
        simpa using hc.symm
    · constructor
      · intro h2
        rcases hr.1 with h | h
        · rw [h] at h2; simp at h2
        · rw [h] at h2; simp at h2
      · intro h; exact absurd h hi
    · intro _
      constructor
      · intro hfail
        rcases hr.1 with h | h
        · obtain ⟨⟨h1, h2, h3, h4⟩, _⟩ := hr.2 h
          rcases hfail with hf | hf | hf | hf
          · rw [h1] at hf; simp at hf
          · exact absurd hf h2
          · rw [h3] at hf; simp at hf
          · rw [h4] at hf; simp at hf
        · exact h
      · rintro ⟨j, hj, hs⟩
        rcases hr.1 with h | h
        · have := (hr.2 h).2 j hj
          rw [this] at hs
          simp at hs
        · exact h

/-! ### Diagnostics of a fatal condition -/

end Xiapply
